import Mathlib

/-!
Verification development for the ai-personal-interviewer repository.

The embedding covers:
* the admin Read API (`src/app/api/admin/sessions/route.ts`, `GET`),
* the session-save API (`src/app/api/sessions/route.ts`, `POST`),
* the workflow API (`src/app/api/workflows/route.ts`, `POST` and `GET`),
* the session-monitor reconciliation pipeline.  The Python sources
  (`services/session_monitor/*.py`) are not part of the checked-in tree,
  so the pipeline is modelled from the specification (see the doc
  comments starting `Modelled from the spec:`).

Blobs in Google Cloud Storage are modelled per collection: a stored blob
either parses into the expected record shape (`Blob.ok`) or fails to
download / fails `JSON.parse` (`Blob.corrupt`).  Timestamps compared via
`new Date(x).getTime()` are modelled as the resulting integer time value.
-/

/-- One transcript turn: `{role, text}` as read by the admin UI and
written by the pipeline. -/
structure Turn where
  role : String
  text : String
deriving DecidableEq, Repr

/-- A transcript is an ordered list of turns. -/
abbrev Transcript := List Turn

/-- Structured summary record (fields per the spec data model; the
producer is a generative model so all structured fields may be empty). -/
structure Summary where
  overall_summary : String
  conversation_quality : List String
  employee_profile : List String
  workflow_analysis : List String
  key_insights : List String
  suggested_actions : List String
deriving DecidableEq, Repr

/-- One workflow entry `{id, name, description, inputs[], outputs[], timestamp}`. -/
structure Workflow where
  id : String
  name : String
  description : String
  inputs : List String
  outputs : List String
  timestamp : String
deriving DecidableEq, Repr

/-- Content of a `workflows/{sessionId}.json` blob:
`{sessionId, fullName, workflows, updatedAt}`.  The `workflows` field is
read defensively (`data.workflows || []`) so it is modelled as optional;
`fullName` may be absent in the POST body. -/
structure WorkflowData where
  sessionId : String
  fullName : Option String
  workflows : Option (List Workflow)
  updatedAt : String
deriving DecidableEq, Repr

/-- Content of a `sessions/{sessionId}.json` blob:
`{sessionId, fullName, timestamp, createdAt}`.  `timestamp` is the
integer value `new Date(session.timestamp).getTime()` used by the admin
route's sort comparator. -/
structure SessionData where
  sessionId : String
  fullName : String
  timestamp : Int
  createdAt : String
deriving DecidableEq, Repr

/-- A stored blob of expected shape `α`: it either downloads and parses
(`ok v`), or the download or `JSON.parse` throws (`corrupt`). -/
inductive Blob (α : Type) where
  | ok (v : α)
  | corrupt
deriving DecidableEq, Repr

/-- `try { JSON.parse(download()) }`: the parsed value, or `none` if the
blob is corrupt. -/
def Blob.parse {α : Type} : Blob α → Option α
  | .ok v => some v
  | .corrupt => none

/-- Transform the parsed value of a blob (a corrupt blob stays corrupt). -/
def Blob.mapVal {α β : Type} (f : α → β) : Blob α → Blob β
  | .ok v => .ok (f v)
  | .corrupt => .corrupt

/-- The store state visible to the admin GET route: the listing of each
prefix, as (key, blob) pairs, where the key is the file name with the
prefix and the `.json` extension stripped. -/
structure AdminStore where
  sessionBlobs : List (String × Blob SessionData)
  summaryBlobs : List (String × Blob Summary)
  transcriptBlobs : List (String × Blob Transcript)
  workflowBlobs : List (String × Blob WorkflowData)
deriving DecidableEq, Repr

/-- The lookup map the route builds for one collection: iterate the
listed files, and for each blob that downloads and parses, map its key to
the parsed value; blobs that throw are skipped (`catch` logs and drops). -/
def buildMap {α : Type} : List (String × Blob α) → String → Option α
  | [], _ => none
  | (k, b) :: rest, q =>
      match b.parse with
      | some v => if q = k then some v else buildMap rest q
      | none => buildMap rest q

/-- One element of the admin GET response: the parsed session spread
together with its optional `summary` and `transcript` attachments and its
`workflows` list (defaulted to `[]`). -/
structure EnrichedSession where
  session : SessionData
  summary : Option Summary
  transcript : Option Transcript
  workflows : List Workflow
deriving DecidableEq, Repr

/-- The workflow lookup map stores `workflowData.workflows || []` for each
parseable workflow blob. -/
def workflowMapOf (st : AdminStore) : String → Option (List Workflow) :=
  buildMap (st.workflowBlobs.map (fun kb => (kb.1, kb.2.mapVal (fun d => d.workflows.getD []))))

/-- Enrich one parsed session with its attachments: `summary` and
`transcript` are the map lookups by the session's `sessionId` field
(absent when the lookup misses), `workflows` is the lookup defaulted to
`[]` (`workflowMap.get(sessionId) || []`). -/
def enrichWith (st : AdminStore) (kb : String × Blob SessionData) : Option EnrichedSession :=
  (kb.2.parse).map (fun s =>
    { session := s
      summary := buildMap st.summaryBlobs s.sessionId
      transcript := buildMap st.transcriptBlobs s.sessionId
      workflows := (workflowMapOf st s.sessionId).getD [] })

/-- The `sessions` array of the route before sorting: one enriched record
per session blob that parses; a session blob that fails to download or
parse becomes `null` and is filtered out. -/
def adminRecords (st : AdminStore) : List EnrichedSession :=
  st.sessionBlobs.filterMap (enrichWith st)

/-- `GET /api/admin/sessions`: the enriched records sorted by
`new Date(timestamp).getTime()` descending (stable sort, comparator
`(a, b) => b.getTime() - a.getTime()`). -/
def adminGET (st : AdminStore) : List EnrichedSession :=
  (adminRecords st).mergeSort (fun a b => decide (b.session.timestamp ≤ a.session.timestamp))

/-! ### Lemmas about the lookup maps -/

theorem buildMap_some_mem {α : Type} {l : List (String × Blob α)} {q : String} {v : α}
    (h : buildMap l q = some v) : (q, Blob.ok v) ∈ l := by
  induction l with
  | nil => simp [buildMap] at h
  | cons kb rest ih =>
    obtain ⟨k, b⟩ := kb
    cases b with
    | ok w =>
      by_cases hq : q = k
      · subst hq
        simp [buildMap, Blob.parse] at h
        subst h
        exact List.mem_cons_self _ _
      · simp [buildMap, Blob.parse, hq] at h
        exact List.mem_cons_of_mem _ (ih h)
    | corrupt =>
      simp [buildMap, Blob.parse] at h
      exact List.mem_cons_of_mem _ (ih h)

theorem buildMap_eq_none_iff {α : Type} (l : List (String × Blob α)) (q : String) :
    buildMap l q = none ↔ ∀ v, (q, Blob.ok v) ∉ l := by
  induction l with
  | nil => simp [buildMap]
  | cons kb rest ih =>
    obtain ⟨k, b⟩ := kb
    cases b with
    | ok w =>
      by_cases hq : q = k
      · subst hq
        refine iff_of_false (by simp [buildMap, Blob.parse]) ?_
        intro hall
        exact hall w (List.mem_cons_self _ _)
      · rw [show buildMap ((k, Blob.ok w) :: rest) q = buildMap rest q from by
            simp [buildMap, Blob.parse, hq], ih]
        constructor
        · intro h v hv
          rcases List.mem_cons.mp hv with h1 | h1
          · simp at h1
            exact hq h1.1
          · exact h v h1
        · intro h v hv
          exact h v (List.mem_cons_of_mem _ hv)
    | corrupt =>
      rw [show buildMap ((k, Blob.corrupt) :: rest) q = buildMap rest q from by
          simp [buildMap, Blob.parse], ih]
      constructor
      · intro h v hv
        rcases List.mem_cons.mp hv with h1 | h1
        · simp at h1
        · exact h v h1
      · intro h v hv
        exact h v (List.mem_cons_of_mem _ hv)

/-- In a prefix listing with no duplicate keys (object-store file names are
unique), one key maps to at most one blob. -/
theorem keyVal_unique {α : Type} {l : List (String × α)} (h : (l.map Prod.fst).Nodup)
    {q : String} {a b : α} (ha : (q, a) ∈ l) (hb : (q, b) ∈ l) : a = b := by
  induction l with
  | nil => simp at ha
  | cons kb rest ih =>
    obtain ⟨k, v⟩ := kb
    simp only [List.map_cons, List.nodup_cons] at h
    rcases List.mem_cons.mp ha with ha1 | ha1 <;> rcases List.mem_cons.mp hb with hb1 | hb1
    · have := ha1.trans hb1.symm
      simpa using this
    · cases ha1
      exact absurd (List.mem_map_of_mem Prod.fst hb1) h.1
    · cases hb1
      exact absurd (List.mem_map_of_mem Prod.fst ha1) h.1
    · exact ih h.2 ha1 hb1

theorem mem_buildMap_some {α : Type} {l : List (String × Blob α)}
    (hnd : (l.map Prod.fst).Nodup) {q : String} {v : α}
    (h : (q, Blob.ok v) ∈ l) : buildMap l q = some v := by
  cases hm : buildMap l q with
  | none => exact absurd h ((buildMap_eq_none_iff l q).mp hm v)
  | some w =>
    have hw := buildMap_some_mem hm
    have heq := keyVal_unique hnd hw h
    injection heq with h2
    rw [h2]

theorem buildMap_corrupt_none {α : Type} {l : List (String × Blob α)}
    (hnd : (l.map Prod.fst).Nodup) {q : String}
    (h : (q, (Blob.corrupt : Blob α)) ∈ l) : buildMap l q = none := by
  rw [buildMap_eq_none_iff]
  intro v hv
  have heq := keyVal_unique hnd hv h
  exact Blob.noConfusion heq

/-! ### Lemmas about the admin GET route -/

theorem enrichWith_eq_some {st : AdminStore} {kb : String × Blob SessionData}
    {r : EnrichedSession} (h : enrichWith st kb = some r) :
    kb.2.parse = some r.session
    ∧ r.summary = buildMap st.summaryBlobs r.session.sessionId
    ∧ r.transcript = buildMap st.transcriptBlobs r.session.sessionId
    ∧ r.workflows = (workflowMapOf st r.session.sessionId).getD [] := by
  unfold enrichWith at h
  rw [Option.map_eq_some'] at h
  obtain ⟨s, hp, hr⟩ := h
  subst hr
  exact ⟨hp, rfl, rfl, rfl⟩

theorem mem_adminGET {st : AdminStore} {r : EnrichedSession} :
    r ∈ adminGET st ↔ ∃ kb ∈ st.sessionBlobs, enrichWith st kb = some r := by
  unfold adminGET
  rw [(List.mergeSort_perm (adminRecords st) _).mem_iff]
  unfold adminRecords
  exact List.mem_filterMap

theorem length_filterMap_enrich (st : AdminStore) (l : List (String × Blob SessionData)) :
    (l.filterMap (enrichWith st)).length = l.countP (fun kb => kb.2.parse.isSome) := by
  induction l with
  | nil => rfl
  | cons kb rest ih =>
    obtain ⟨k, b⟩ := kb
    cases b with
    | ok s => simp [List.filterMap_cons, List.countP_cons, enrichWith, Blob.parse, ih]
    | corrupt => simp [List.filterMap_cons, List.countP_cons, enrichWith, Blob.parse, ih]

theorem adminGET_length (st : AdminStore) :
    (adminGET st).length = st.sessionBlobs.countP (fun kb => kb.2.parse.isSome) := by
  unfold adminGET
  rw [(List.mergeSort_perm (adminRecords st) _).length_eq]
  exact length_filterMap_enrich st st.sessionBlobs

theorem countP_parse_split {α : Type} (l : List (String × Blob α)) :
    l.countP (fun kb => kb.2.parse.isSome) + l.countP (fun kb => kb.2.parse.isNone) = l.length := by
  induction l with
  | nil => rfl
  | cons kb rest ih =>
    obtain ⟨k, b⟩ := kb
    cases b with
    | ok v =>
      simp [List.countP_cons, Blob.parse] at ih ⊢
      omega
    | corrupt =>
      simp [List.countP_cons, Blob.parse] at ih ⊢
      omega

theorem workflowMapOf_keys (st : AdminStore) :
    ((st.workflowBlobs.map (fun kb => (kb.1, kb.2.mapVal (fun d => d.workflows.getD [])))).map
      Prod.fst) = st.workflowBlobs.map Prod.fst := by
  rw [List.map_map]
  rfl

theorem adminGET_pairwise (st : AdminStore) :
    (adminGET st).Pairwise (fun a b => b.session.timestamp ≤ a.session.timestamp) := by
  have htrans : ∀ a b c : EnrichedSession,
      (decide (b.session.timestamp ≤ a.session.timestamp)) = true →
      (decide (c.session.timestamp ≤ b.session.timestamp)) = true →
      (decide (c.session.timestamp ≤ a.session.timestamp)) = true := by
    intro a b c h1 h2
    simp only [decide_eq_true_eq] at h1 h2 ⊢
    exact le_trans h2 h1
  have htotal : ∀ a b : EnrichedSession,
      ((decide (b.session.timestamp ≤ a.session.timestamp)) ||
       (decide (a.session.timestamp ≤ b.session.timestamp))) = true := by
    intro a b
    simp only [Bool.or_eq_true, decide_eq_true_eq]
    exact le_total _ _
  have hs := List.sorted_mergeSort htrans htotal (adminRecords st)
  exact hs.imp (fun h => of_decide_eq_true h)

/-- C1: `GET /api/admin/sessions` returns exactly one record per parseable
`sessions/*` blob (corrupt ones dropped), each record carrying the
summary and transcript whose key matches its `sessionId` field when such
a parseable blob exists (the attachment is absent otherwise) and the
workflow list of the matching workflow blob (the empty list — "no
workflows identified" — when no blob exists), and the list is sorted by
session timestamp descending.  The key-uniqueness hypotheses hold for any
object-store prefix listing (file names are unique). -/
theorem adminGET_joined_view (st : AdminStore)
    (hs : (st.summaryBlobs.map Prod.fst).Nodup)
    (ht : (st.transcriptBlobs.map Prod.fst).Nodup)
    (hw : (st.workflowBlobs.map Prod.fst).Nodup) :
    (adminGET st).length = st.sessionBlobs.countP (fun kb => kb.2.parse.isSome)
    ∧ (∀ k s, (k, Blob.ok s) ∈ st.sessionBlobs → ∃ r ∈ adminGET st, r.session = s)
    ∧ (∀ r ∈ adminGET st,
        (∀ v, r.summary = some v ↔ (r.session.sessionId, Blob.ok v) ∈ st.summaryBlobs)
      ∧ (∀ v, r.transcript = some v ↔ (r.session.sessionId, Blob.ok v) ∈ st.transcriptBlobs)
      ∧ (∀ d, (r.session.sessionId, Blob.ok d) ∈ st.workflowBlobs →
            r.workflows = d.workflows.getD [])
      ∧ ((∀ b, (r.session.sessionId, b) ∉ st.workflowBlobs) → r.workflows = []))
    ∧ (adminGET st).Pairwise (fun a b => b.session.timestamp ≤ a.session.timestamp) := by
  refine ⟨adminGET_length st, ?_, ?_, adminGET_pairwise st⟩
  · intro k s hmem
    refine ⟨{ session := s
              summary := buildMap st.summaryBlobs s.sessionId
              transcript := buildMap st.transcriptBlobs s.sessionId
              workflows := (workflowMapOf st s.sessionId).getD [] }, ?_, rfl⟩
    exact mem_adminGET.mpr ⟨(k, Blob.ok s), hmem, rfl⟩
  · intro r hr
    obtain ⟨kb, hkb, henr⟩ := mem_adminGET.mp hr
    obtain ⟨hp, hsum, htr, hwf⟩ := enrichWith_eq_some henr
    refine ⟨?_, ?_, ?_, ?_⟩
    · intro v
      rw [hsum]
      exact ⟨buildMap_some_mem, mem_buildMap_some hs⟩
    · intro v
      rw [htr]
      exact ⟨buildMap_some_mem, mem_buildMap_some ht⟩
    · intro d hd
      rw [hwf]
      have hmem2 : (r.session.sessionId, Blob.ok (d.workflows.getD [])) ∈
          st.workflowBlobs.map (fun kb => (kb.1, kb.2.mapVal (fun d => d.workflows.getD []))) :=
        List.mem_map_of_mem _ hd
      have hnd2 : ((st.workflowBlobs.map
          (fun kb => (kb.1, kb.2.mapVal (fun d => d.workflows.getD [])))).map Prod.fst).Nodup := by
        rw [workflowMapOf_keys]
        exact hw
      rw [workflowMapOf, mem_buildMap_some hnd2 hmem2]
      rfl
    · intro hnone
      rw [hwf]
      have hn : workflowMapOf st r.session.sessionId = none := by
        rw [workflowMapOf, buildMap_eq_none_iff]
        intro ws hws
        obtain ⟨kb2, hkb2, heq⟩ := List.mem_map.mp hws
        have hk : kb2.1 = r.session.sessionId := congrArg Prod.fst heq
        exact hnone kb2.2 (by rw [← hk]; exact hkb2)
      rw [hn]
      rfl

/-- C2: the admin Read API never surfaces partial or corrupt data: every
corrupt session blob is dropped (record counts add up), every returned
record comes from a parseable session blob, a corrupt summary or
transcript blob leaves that attachment absent (pending) and a corrupt
workflow blob leaves the workflow list empty; any attachment that is
returned is exactly a parseable stored blob. -/
theorem adminGET_omits_corrupt (st : AdminStore)
    (hs : (st.summaryBlobs.map Prod.fst).Nodup)
    (ht : (st.transcriptBlobs.map Prod.fst).Nodup)
    (hw : (st.workflowBlobs.map Prod.fst).Nodup) :
    ((adminGET st).length + st.sessionBlobs.countP (fun kb => kb.2.parse.isNone)
      = st.sessionBlobs.length)
    ∧ (∀ r ∈ adminGET st, ∃ k, (k, Blob.ok r.session) ∈ st.sessionBlobs)
    ∧ (∀ r ∈ adminGET st,
        ((r.session.sessionId, (Blob.corrupt : Blob Summary)) ∈ st.summaryBlobs →
            r.summary = none)
      ∧ (∀ v, r.summary = some v → (r.session.sessionId, Blob.ok v) ∈ st.summaryBlobs)
      ∧ ((r.session.sessionId, (Blob.corrupt : Blob Transcript)) ∈ st.transcriptBlobs →
            r.transcript = none)
      ∧ (∀ v, r.transcript = some v → (r.session.sessionId, Blob.ok v) ∈ st.transcriptBlobs)
      ∧ ((r.session.sessionId, (Blob.corrupt : Blob WorkflowData)) ∈ st.workflowBlobs →
            r.workflows = [])) := by
  refine ⟨?_, ?_, ?_⟩
  · rw [adminGET_length]
    exact countP_parse_split _
  · intro r hr
    obtain ⟨kb, hkb, henr⟩ := mem_adminGET.mp hr
    obtain ⟨hp, -, -, -⟩ := enrichWith_eq_some henr
    cases hb : kb.2 with
    | ok s =>
      refine ⟨kb.1, ?_⟩
      rw [hb] at hp
      have hse : s = r.session := by simpa [Blob.parse] using hp
      rw [← hse, ← hb]
      exact hkb
    | corrupt =>
      rw [hb] at hp
      simp [Blob.parse] at hp
  · intro r hr
    obtain ⟨kb, hkb, henr⟩ := mem_adminGET.mp hr
    obtain ⟨hp, hsum, htr, hwf⟩ := enrichWith_eq_some henr
    refine ⟨?_, ?_, ?_, ?_, ?_⟩
    · intro hc
      rw [hsum, buildMap_corrupt_none hs hc]
    · intro v hv
      exact buildMap_some_mem (hsum.symm.trans hv)
    · intro hc
      rw [htr, buildMap_corrupt_none ht hc]
    · intro v hv
      exact buildMap_some_mem (htr.symm.trans hv)
    · intro hc
      rw [hwf]
      have hc2 : (r.session.sessionId, (Blob.corrupt : Blob (List Workflow))) ∈
          st.workflowBlobs.map (fun kb => (kb.1, kb.2.mapVal (fun d => d.workflows.getD []))) :=
        List.mem_map_of_mem _ hc
      have hnd2 : ((st.workflowBlobs.map
          (fun kb => (kb.1, kb.2.mapVal (fun d => d.workflows.getD [])))).map Prod.fst).Nodup := by
        rw [workflowMapOf_keys]
        exact hw
      rw [workflowMapOf, buildMap_corrupt_none hnd2 hc2]
      rfl

/-- A small concrete admin store: two parseable sessions, one corrupt
session blob, one parseable and one corrupt summary, one transcript, one
workflow blob. -/
def st0 : AdminStore :=
  { sessionBlobs := [("s1", .ok ⟨"s1", "Ada", 100, "c1"⟩),
                     ("s2", .ok ⟨"s2", "Bob", 200, "c2"⟩),
                     ("bad", .corrupt)]
    summaryBlobs := [("s1", .ok ⟨"great chat", [], [], [], ["insight"], []⟩),
                     ("s2", .corrupt)]
    transcriptBlobs := [("s1", .ok [⟨"user", "hi"⟩, ⟨"agent", "hello"⟩])]
    workflowBlobs := [("s2", .ok ⟨"s2", some "Bob", some [⟨"w1", "n", "d", [], [], "t"⟩], "u"⟩)] }

theorem adminGET_joined_view_witness :
    (adminGET st0).length = st0.sessionBlobs.countP (fun kb => kb.2.parse.isSome)
    ∧ (adminGET st0).Pairwise (fun a b => b.session.timestamp ≤ a.session.timestamp) :=
  ⟨(adminGET_joined_view st0 (by decide) (by decide) (by decide)).1,
   (adminGET_joined_view st0 (by decide) (by decide) (by decide)).2.2.2⟩

theorem adminGET_omits_corrupt_witness :
    (adminGET st0).length + st0.sessionBlobs.countP (fun kb => kb.2.parse.isNone)
      = st0.sessionBlobs.length :=
  (adminGET_omits_corrupt st0 (by decide) (by decide) (by decide)).1

/-! ### The session-monitor pipeline, modelled from the spec

The Python sources `services/session_monitor/*.py` (main.py,
napster_client.py, summarizer.py, state_manager.py) are not in the
checked-in tree; the model below follows sections 4.1-4.3 of the
specification. -/

/-- Association-list read of one key of the object store. -/
def getKey {α : Type} : List (String × α) → String → Option α
  | [], _ => none
  | (k, v) :: rest, q => if q = k then some v else getKey rest q

/-- Association-list overwrite of one key of the object store (atomic
per-key write: replaces the existing blob or creates the key). -/
def setKey {α : Type} : List (String × α) → String → α → List (String × α)
  | [], q, w => [(q, w)]
  | (k, v) :: rest, q, w => if k = q then (q, w) :: rest else (k, v) :: setKey rest q w

/-- Modelled from the spec: the durable collections the pipeline owns —
`transcripts/`, `summaries/`, and the `state` key holding the
processed-set (`{processedSessionIds: [string]}`). -/
structure PipelineStore where
  transcripts : List (String × Transcript)
  summaries : List (String × Summary)
  processed : List String
deriving DecidableEq, Repr

/-- The empty object store of a first run. -/
def emptyStore : PipelineStore := ⟨[], [], []⟩

/-- Modelled from the spec: the pipeline's collaborators — the Remote
Session Source (session listing and per-session transcript fetch, `none`
meaning not-found), the Summarization Engine (raw generative text output),
the lenient structured parse of that output (`none` when unparseable),
and the per-key success of the two object-store writes. -/
structure Env where
  remote : List String
  fetch : String → Option Transcript
  engineRaw : Transcript → String
  parseSummary : String → Option Summary
  transcriptWriteOk : String → Bool
  summaryWriteOk : String → Bool

/-- Modelled from the spec: fallback for unparseable Summarization Engine
output — the raw returned text under `overall_summary`, all other
structured fields empty/defaulted. -/
def fallbackSummary (raw : String) : Summary :=
  { overall_summary := raw
    conversation_quality := []
    employee_profile := []
    workflow_analysis := []
    key_insights := []
    suggested_actions := [] }

/-- Outcome of one per-session enrichment attempt (spec section 4.3). -/
inductive EnrichResult where
  | unavailable
  | tooShort
  | transcriptWriteFailed (tr : Transcript)
  | summaryWriteFailed (tr : Transcript)
  | success (tr : Transcript) (sum : Summary)
deriving DecidableEq, Repr

/-- Modelled from the spec (section 4.3): fetch the transcript (`none` or
empty content means `TranscriptUnavailable` — skip), validate at least
two turns (below threshold — skip, no engine call), persist the raw
transcript (write failure aborts the session), invoke the Summarization
Engine and leniently parse its output (falling back to the raw text on
parse failure), persist the summary (write failure aborts the session,
with the transcript already persisted). -/
def enrichOne (env : Env) (id : String) : EnrichResult :=
  match env.fetch id with
  | none => .unavailable
  | some tr =>
      if tr.length = 0 then .unavailable
      else if tr.length < 2 then .tooShort
      else if !env.transcriptWriteOk id then .transcriptWriteFailed tr
      else
        let raw := env.engineRaw tr
        let sum := (env.parseSummary raw).getD (fallbackSummary raw)
        if !env.summaryWriteOk id then .summaryWriteFailed tr
        else .success tr sum

/-- Modelled from the spec: the store effect of one enrichment attempt.
A skipped or aborted session changes nothing, except that a summary-write
failure leaves the already-persisted transcript behind (spec section 5:
"partial writes (transcript without summary) are safe").  On success the
transcript and summary are persisted and `markProcessed` adds the id to
the processed-set and persists it immediately. -/
def applyEnrich (s : PipelineStore) (id : String) : EnrichResult → PipelineStore
  | .unavailable => s
  | .tooShort => s
  | .transcriptWriteFailed _ => s
  | .summaryWriteFailed tr => { s with transcripts := setKey s.transcripts id tr }
  | .success tr sum =>
      { transcripts := setKey s.transcripts id tr
        summaries := setKey s.summaries id sum
        processed := if s.processed.contains id then s.processed else s.processed ++ [id] }

/-- Observable actions of one enrichment attempt, in order: `persistT`
(transcript successfully persisted), `engineCall` (Summarization Engine
invoked), `persistS` (summary successfully persisted), `markProc`
(session marked processed). -/
inductive Event where
  | persistT (id : String)
  | engineCall (id : String)
  | persistS (id : String)
  | markProc (id : String)
deriving DecidableEq, Repr

/-- The ordered event trace of one enrichment attempt. -/
def eventsOf (id : String) : EnrichResult → List Event
  | .unavailable => []
  | .tooShort => []
  | .transcriptWriteFailed _ => []
  | .summaryWriteFailed _ => [.persistT id, .engineCall id]
  | .success _ _ => [.persistT id, .engineCall id, .persistS id, .markProc id]

/-- Modelled from the spec: process a list of session ids in order,
applying each enrichment's store effect and concatenating the traces. -/
def runList (env : Env) : List String → PipelineStore → PipelineStore × List Event
  | [], s => (s, [])
  | id :: rest, s =>
      let r := enrichOne env id
      let out := runList env rest (applyEnrich s id r)
      (out.1, eventsOf id r ++ out.2)

/-- Modelled from the spec (section 4.1): one reconciliation pass — load
the processed-set, list the remote sessions, and enrich the unprocessed
subset (remote ids minus processed-set) in arrival order. -/
def runOnce (env : Env) (s : PipelineStore) : PipelineStore × List Event :=
  runList env (env.remote.filter (fun id => !(s.processed.contains id))) s

/-- Number of Summarization Engine invocations recorded in a trace. -/
def countEngine (evs : List Event) : Nat :=
  evs.countP (fun e => match e with | .engineCall _ => true | _ => false)

/-- Store states reachable by the pipeline: the empty store, plus the
effect of any per-session enrichment attempt (this includes every state
runOnce passes through at session granularity, under any behavior of the
external collaborators). -/
inductive Reachable : PipelineStore → Prop where
  | init : Reachable emptyStore
  | step (env : Env) (id : String) (s : PipelineStore) :
      Reachable s → Reachable (applyEnrich s id (enrichOne env id))

/-! ### Lemmas about the pipeline -/

theorem getKey_setKey {α : Type} (m : List (String × α)) (k : String) (v : α) (q : String) :
    getKey (setKey m k v) q = if q = k then some v else getKey m q := by
  induction m with
  | nil => simp [setKey, getKey]
  | cons kv rest ih =>
    obtain ⟨k1, v1⟩ := kv
    by_cases hk : k1 = k
    · subst hk
      simp only [setKey, if_pos rfl]
      by_cases hq : q = k1
      · simp [getKey, hq]
      · simp [getKey, hq]
    · simp only [setKey, if_neg hk]
      by_cases hq : q = k1
      · subst hq
        simp [getKey, hk]
      · simp [getKey, hq, ih]

def EnrichResult.isSuccess : EnrichResult → Bool
  | .success _ _ => true
  | _ => false

def EnrichResult.isSummaryFail : EnrichResult → Bool
  | .summaryWriteFailed _ => true
  | _ => false

theorem applyEnrich_noop {s : PipelineStore} {id : String} {r : EnrichResult}
    (h1 : r.isSuccess = false) (h2 : r.isSummaryFail = false) :
    applyEnrich s id r = s ∧ eventsOf id r = [] := by
  cases r with
  | unavailable => exact ⟨rfl, rfl⟩
  | tooShort => exact ⟨rfl, rfl⟩
  | transcriptWriteFailed tr => exact ⟨rfl, rfl⟩
  | summaryWriteFailed tr => simp [EnrichResult.isSummaryFail] at h2
  | success tr sum => simp [EnrichResult.isSuccess] at h1

theorem mem_processed_apply (s : PipelineStore) (id : String) (r : EnrichResult) (x : String) :
    x ∈ (applyEnrich s id r).processed ↔
      x ∈ s.processed ∨ (r.isSuccess = true ∧ x = id) := by
  cases r with
  | unavailable => simp [applyEnrich, EnrichResult.isSuccess]
  | tooShort => simp [applyEnrich, EnrichResult.isSuccess]
  | transcriptWriteFailed tr => simp [applyEnrich, EnrichResult.isSuccess]
  | summaryWriteFailed tr => simp [applyEnrich, EnrichResult.isSuccess]
  | success tr sum =>
    simp only [applyEnrich, EnrichResult.isSuccess, true_and]
    by_cases hc : s.processed.contains id = true
    · rw [if_pos hc]
      have hid : id ∈ s.processed := List.elem_iff.mp hc
      constructor
      · exact Or.inl
      · rintro (h | rfl)
        · exact h
        · exact hid
    · rw [if_neg hc]
      rw [List.mem_append, List.mem_singleton]

theorem mem_processed_runList (env : Env) (l : List String) (s : PipelineStore) (x : String) :
    x ∈ (runList env l s).1.processed ↔
      x ∈ s.processed ∨ (x ∈ l ∧ (enrichOne env x).isSuccess = true) := by
  induction l generalizing s with
  | nil => simp [runList]
  | cons id rest ih =>
    show x ∈ (runList env rest (applyEnrich s id (enrichOne env id))).1.processed ↔ _
    rw [ih, mem_processed_apply]
    by_cases hx : x = id
    · subst hx
      simp only [List.mem_cons, true_or, true_and]
      tauto
    · simp only [List.mem_cons, hx, false_or, and_false, or_false]

theorem runList_trace (env : Env) (l : List String) :
    ∀ s : PipelineStore,
      (runList env l s).2 = (l.map (fun id => eventsOf id (enrichOne env id))).flatten := by
  induction l with
  | nil => intro s; rfl
  | cons id rest ih =>
    intro s
    show eventsOf id (enrichOne env id) ++ (runList env rest _).2 = _
    rw [ih]
    rfl

theorem engineCall_mem_eventsOf (x id : String) (r : EnrichResult) :
    Event.engineCall x ∈ eventsOf id r ↔
      x = id ∧ (r.isSummaryFail || r.isSuccess) = true := by
  cases r with
  | unavailable => simp [eventsOf, EnrichResult.isSummaryFail, EnrichResult.isSuccess]
  | tooShort => simp [eventsOf, EnrichResult.isSummaryFail, EnrichResult.isSuccess]
  | transcriptWriteFailed tr =>
    simp [eventsOf, EnrichResult.isSummaryFail, EnrichResult.isSuccess]
  | summaryWriteFailed tr =>
    simp [eventsOf, EnrichResult.isSummaryFail, EnrichResult.isSuccess]
  | success tr sum =>
    simp [eventsOf, EnrichResult.isSummaryFail, EnrichResult.isSuccess]

theorem runList_noop (env : Env) (l : List String) (s : PipelineStore)
    (h : ∀ id ∈ l, (enrichOne env id).isSuccess = false
        ∧ (enrichOne env id).isSummaryFail = false) :
    runList env l s = (s, []) := by
  induction l generalizing s with
  | nil => rfl
  | cons id rest ih =>
    have h1 := h id (List.mem_cons_self _ _)
    obtain ⟨ha, he⟩ := applyEnrich_noop h1.1 h1.2
    show (let out := runList env rest (applyEnrich s id (enrichOne env id));
          (out.1, eventsOf id (enrichOne env id) ++ out.2)) = (s, [])
    rw [ha, he, ih s (fun x hx => h x (List.mem_cons_of_mem _ hx))]
    rfl

theorem contains_eq_false_of_not_mem {l : List String} {a : String} (h : a ∉ l) :
    l.contains a = false := by
  cases hc : l.contains a
  · rfl
  · exact absurd (List.elem_iff.mp hc) h

theorem not_mem_of_contains_eq_false {l : List String} {a : String}
    (h : l.contains a = false) : a ∉ l :=
  fun hm => Bool.noConfusion ((List.elem_iff.mpr hm).symm.trans h)

theorem reachable_summary_inv {s : PipelineStore} (hs : Reachable s) :
    ∀ id sum, getKey s.summaries id = some sum →
      (∃ tr, getKey s.transcripts id = some tr) ∧ id ∈ s.processed := by
  induction hs with
  | init =>
    intro id sum h
    simp [emptyStore, getKey] at h
  | step env id' s0 hprev ih =>
    intro id sum
    cases hr : enrichOne env id' with
    | unavailable => exact fun hsum => ih id sum hsum
    | tooShort => exact fun hsum => ih id sum hsum
    | transcriptWriteFailed tr => exact fun hsum => ih id sum hsum
    | summaryWriteFailed tr =>
      intro hsum
      obtain ⟨⟨tr0, htr0⟩, hproc⟩ := ih id sum hsum
      refine ⟨?_, hproc⟩
      show ∃ t, getKey (setKey s0.transcripts id' tr) id = some t
      rw [getKey_setKey]
      by_cases hid : id = id'
      · exact ⟨tr, by rw [if_pos hid]⟩
      · exact ⟨tr0, by rw [if_neg hid]; exact htr0⟩
    | success tr sum' =>
      intro hsum
      have hsum2 : getKey (setKey s0.summaries id' sum') id = some sum := hsum
      rw [getKey_setKey] at hsum2
      by_cases hid : id = id'
      · subst hid
        constructor
        · refine ⟨tr, ?_⟩
          show getKey (setKey s0.transcripts id tr) id = some tr
          rw [getKey_setKey, if_pos rfl]
        · show id ∈ (if s0.processed.contains id then s0.processed else s0.processed ++ [id])
          by_cases hc : s0.processed.contains id = true
          · rw [if_pos hc]
            exact List.elem_iff.mp hc
          · rw [if_neg hc]
            exact List.mem_append.mpr (Or.inr (List.mem_singleton.mpr rfl))
      · rw [if_neg hid] at hsum2
        obtain ⟨⟨tr0, htr0⟩, hproc⟩ := ih id sum hsum2
        constructor
        · refine ⟨tr0, ?_⟩
          show getKey (setKey s0.transcripts id' tr) id = some tr0
          rw [getKey_setKey, if_neg hid]
          exact htr0
        · show id ∈ (if s0.processed.contains id' then s0.processed else s0.processed ++ [id'])
          by_cases hc : s0.processed.contains id' = true
          · rw [if_pos hc]
            exact hproc
          · rw [if_neg hc]
            exact List.mem_append.mpr (Or.inl hproc)

/-- C3 (spec-modelled): over every reachable store state, a summary blob
exists for session S only if a transcript blob exists for S and S is in
the processed-set; within one session's enrichment trace the transcript
is persisted before the Summarization Engine is invoked, and the session
is marked processed only after both the transcript and the summary were
successfully persisted. -/
theorem pipeline_invariant :
    (∀ s, Reachable s → ∀ id sum, getKey s.summaries id = some sum →
        (∃ tr, getKey s.transcripts id = some tr) ∧ id ∈ s.processed)
    ∧ (∀ env id, Event.engineCall id ∈ eventsOf id (enrichOne env id) →
        ∃ pre post, eventsOf id (enrichOne env id) = pre ++ Event.engineCall id :: post
          ∧ Event.persistT id ∈ pre)
    ∧ (∀ env id, Event.markProc id ∈ eventsOf id (enrichOne env id) →
        ∃ pre post, eventsOf id (enrichOne env id) = pre ++ Event.markProc id :: post
          ∧ Event.persistT id ∈ pre ∧ Event.persistS id ∈ pre) := by
  refine ⟨fun s hs => reachable_summary_inv hs, ?_, ?_⟩
  · intro env id h
    cases hr : enrichOne env id with
    | unavailable => rw [hr] at h; simp [eventsOf] at h
    | tooShort => rw [hr] at h; simp [eventsOf] at h
    | transcriptWriteFailed tr => rw [hr] at h; simp [eventsOf] at h
    | summaryWriteFailed tr =>
      exact ⟨[Event.persistT id], [], rfl, List.mem_singleton.mpr rfl⟩
    | success tr sum =>
      exact ⟨[Event.persistT id], [Event.persistS id, Event.markProc id], rfl,
        List.mem_singleton.mpr rfl⟩
  · intro env id h
    cases hr : enrichOne env id with
    | unavailable => rw [hr] at h; simp [eventsOf] at h
    | tooShort => rw [hr] at h; simp [eventsOf] at h
    | transcriptWriteFailed tr => rw [hr] at h; simp [eventsOf] at h
    | summaryWriteFailed tr => rw [hr] at h; simp [eventsOf] at h
    | success tr sum =>
      exact ⟨[Event.persistT id, Event.engineCall id, Event.persistS id], [], rfl,
        List.mem_cons_self _ _,
        List.mem_cons_of_mem _ (List.mem_cons_of_mem _ (List.mem_cons_self _ _))⟩

/-- A fully-succeeding environment with one remote session. -/
def env1 : Env :=
  { remote := ["s1"]
    fetch := fun _ => some [⟨"user", "hi"⟩, ⟨"agent", "hello"⟩]
    engineRaw := fun _ => "{}"
    parseSummary := fun _ => some ⟨"parsed", [], [], [], [], []⟩
    transcriptWriteOk := fun _ => true
    summaryWriteOk := fun _ => true }

/-- The store after enriching `s1` from the empty store under `env1`. -/
def store1 : PipelineStore := applyEnrich emptyStore "s1" (enrichOne env1 "s1")

theorem pipeline_invariant_witness :
    (∃ tr, getKey store1.transcripts "s1" = some tr) ∧ "s1" ∈ store1.processed :=
  pipeline_invariant.1 store1 (Reachable.step env1 "s1" emptyStore Reachable.init) "s1"
    ⟨"parsed", [], [], [], [], []⟩ (by decide)

/-- An environment in which the single remote session's summary write
always fails: the spec (sections 4.3 and 7) leaves such a session
unprocessed and retry-eligible, so a second pass re-invokes the
Summarization Engine. -/
def envC4 : Env :=
  { remote := ["s1"]
    fetch := fun _ => some [⟨"user", "hi"⟩, ⟨"agent", "hello"⟩]
    engineRaw := fun _ => "raw"
    parseSummary := fun _ => none
    transcriptWriteOk := fun _ => true
    summaryWriteOk := fun _ => false }

/-- C4 counterexample (spec-modelled): with `envC4` the remote source
lists the same single session in both passes (no new sessions), yet the
second `runOnce` invokes the Summarization Engine again (once, for the
retried summary-persist-failed session), so the claim as stated is false. -/
theorem runOnce_twice_not_idempotent :
    ¬ (countEngine (runOnce envC4 (runOnce envC4 emptyStore).1).2 = 0
       ∧ (runOnce envC4 (runOnce envC4 emptyStore).1).1 = (runOnce envC4 emptyStore).1) := by
  decide

/-- C4 amended (spec-modelled): if no remote session is left in the
summary-persist-failed state by the first pass (each is either fully
processed or fails/skips before the Summarization Engine is invoked),
then a second `runOnce` with the same environment makes zero
Summarization Engine calls and leaves the store byte-identical. -/
theorem runOnce_twice_idempotent (env : Env) (s : PipelineStore)
    (h : ∀ id ∈ env.remote, (enrichOne env id).isSummaryFail = false) :
    countEngine (runOnce env (runOnce env s).1).2 = 0
    ∧ (runOnce env (runOnce env s).1).1 = (runOnce env s).1 := by
  have hkey : ∀ id ∈ env.remote.filter
      (fun id => !((runOnce env s).1.processed.contains id)),
      (enrichOne env id).isSuccess = false ∧ (enrichOne env id).isSummaryFail = false := by
    intro id hid
    rw [List.mem_filter] at hid
    obtain ⟨hrem, hnc⟩ := hid
    have hnc2 : (runOnce env s).1.processed.contains id = false := by
      cases hcc : (runOnce env s).1.processed.contains id
      · rfl
      · rw [hcc] at hnc
        simp at hnc
    have hnotmem : id ∉ (runOnce env s).1.processed := not_mem_of_contains_eq_false hnc2
    refine ⟨?_, h id hrem⟩
    by_contra hsucc
    rw [Bool.not_eq_false] at hsucc
    have hnot_s : id ∉ s.processed := fun hmem =>
      hnotmem ((mem_processed_runList env _ s id).mpr (Or.inl hmem))
    have hid1 : id ∈ env.remote.filter (fun id => !(s.processed.contains id)) := by
      rw [List.mem_filter]
      refine ⟨hrem, ?_⟩
      rw [contains_eq_false_of_not_mem hnot_s]
      rfl
    exact hnotmem ((mem_processed_runList env _ s id).mpr (Or.inr ⟨hid1, hsucc⟩))
  have hrun : runList env (env.remote.filter
      (fun id => !((runOnce env s).1.processed.contains id))) (runOnce env s).1
      = ((runOnce env s).1, []) := runList_noop _ _ _ hkey
  have hall : runOnce env (runOnce env s).1 = ((runOnce env s).1, []) := hrun
  rw [hall]
  exact ⟨rfl, rfl⟩

theorem runOnce_twice_idempotent_witness :
    countEngine (runOnce env1 (runOnce env1 emptyStore).1).2 = 0
    ∧ (runOnce env1 (runOnce env1 emptyStore).1).1 = (runOnce env1 emptyStore).1 :=
  runOnce_twice_idempotent env1 emptyStore (by
    intro id hid
    simp [env1] at hid
    subst hid
    decide)

/-- C5 (spec-modelled): a session whose fetched transcript has fewer than
two turns is never sent to the Summarization Engine during a pass and is
never added to the processed-set — it is skipped and remains eligible for
retry on the next pass. -/
theorem shortTranscriptSkipped (env : Env) (s : PipelineStore) (id : String) (tr : Transcript)
    (hf : env.fetch id = some tr) (hlen : tr.length < 2) :
    Event.engineCall id ∉ (runOnce env s).2
    ∧ ((id ∈ (runOnce env s).1.processed) ↔ id ∈ s.processed) := by
  have hr : (enrichOne env id).isSuccess = false ∧ (enrichOne env id).isSummaryFail = false := by
    unfold enrichOne
    rw [hf]
    by_cases h0 : tr.length = 0
    · simp [h0, EnrichResult.isSuccess, EnrichResult.isSummaryFail]
    · simp [h0, hlen, EnrichResult.isSuccess, EnrichResult.isSummaryFail]
  constructor
  · intro hmem
    rw [runOnce, runList_trace, List.mem_flatten] at hmem
    obtain ⟨evs, hevs, hin⟩ := hmem
    rw [List.mem_map] at hevs
    obtain ⟨id2, hid2, rfl⟩ := hevs
    rw [engineCall_mem_eventsOf] at hin
    obtain ⟨rfl, hok⟩ := hin
    rw [hr.1, hr.2] at hok
    simp at hok
  · rw [runOnce, mem_processed_runList, hr.1]
    simp

/-- An environment whose single remote session has a one-turn transcript. -/
def envShort : Env :=
  { remote := ["s1"]
    fetch := fun _ => some [⟨"user", "hi"⟩]
    engineRaw := fun _ => "{}"
    parseSummary := fun _ => none
    transcriptWriteOk := fun _ => true
    summaryWriteOk := fun _ => true }

theorem shortTranscriptSkipped_witness :
    Event.engineCall "s1" ∉ (runOnce envShort emptyStore).2
    ∧ (("s1" ∈ (runOnce envShort emptyStore).1.processed) ↔ "s1" ∈ emptyStore.processed) :=
  shortTranscriptSkipped envShort emptyStore "s1" [⟨"user", "hi"⟩] rfl (by decide)

/-- C6 (spec-modelled): when the Summarization Engine's output cannot be
parsed as structured JSON, the enrichment stores the fallback summary —
`overall_summary` equal to the raw returned text, all other structured
fields empty — and the session is still marked processed (given the two
object-store writes succeed; a parse failure itself never leaves the
session unprocessed). -/
theorem unparseableOutputFallback (env : Env) (s : PipelineStore) (id : String)
    (tr : Transcript) (hf : env.fetch id = some tr) (h2 : 2 ≤ tr.length)
    (hp : env.parseSummary (env.engineRaw tr) = none)
    (hw1 : env.transcriptWriteOk id = true) (hw2 : env.summaryWriteOk id = true) :
    enrichOne env id = .success tr (fallbackSummary (env.engineRaw tr))
    ∧ getKey (applyEnrich s id (enrichOne env id)).summaries id
        = some (fallbackSummary (env.engineRaw tr))
    ∧ id ∈ (applyEnrich s id (enrichOne env id)).processed
    ∧ (fallbackSummary (env.engineRaw tr)).overall_summary = env.engineRaw tr
    ∧ (fallbackSummary (env.engineRaw tr)).conversation_quality = []
    ∧ (fallbackSummary (env.engineRaw tr)).employee_profile = []
    ∧ (fallbackSummary (env.engineRaw tr)).workflow_analysis = []
    ∧ (fallbackSummary (env.engineRaw tr)).key_insights = []
    ∧ (fallbackSummary (env.engineRaw tr)).suggested_actions = [] := by
  have h0 : ¬ tr.length = 0 := by omega
  have h1 : ¬ tr.length < 2 := by omega
  have he : enrichOne env id = .success tr (fallbackSummary (env.engineRaw tr)) := by
    unfold enrichOne
    rw [hf]
    simp [h0, h1, hw1, hw2, hp]
  refine ⟨he, ?_, ?_, rfl, rfl, rfl, rfl, rfl, rfl⟩
  · rw [he]
    show getKey (setKey s.summaries id (fallbackSummary (env.engineRaw tr))) id = _
    rw [getKey_setKey, if_pos rfl]
  · rw [he]
    show id ∈ (if s.processed.contains id then s.processed else s.processed ++ [id])
    by_cases hc : s.processed.contains id = true
    · rw [if_pos hc]
      exact List.elem_iff.mp hc
    · rw [if_neg hc]
      exact List.mem_append.mpr (Or.inr (List.mem_singleton.mpr rfl))

/-- An environment whose Summarization Engine returns unparseable text. -/
def envRaw : Env :=
  { remote := ["s1"]
    fetch := fun _ => some [⟨"user", "hi"⟩, ⟨"agent", "hello"⟩]
    engineRaw := fun _ => "not json"
    parseSummary := fun _ => none
    transcriptWriteOk := fun _ => true
    summaryWriteOk := fun _ => true }

theorem unparseableOutputFallback_witness :
    getKey (applyEnrich emptyStore "s1" (enrichOne envRaw "s1")).summaries "s1"
      = some (fallbackSummary "not json")
    ∧ "s1" ∈ (applyEnrich emptyStore "s1" (enrichOne envRaw "s1")).processed := by
  have h := unparseableOutputFallback envRaw emptyStore "s1"
      [⟨"user", "hi"⟩, ⟨"agent", "hello"⟩] rfl (by decide) rfl rfl rfl
  exact ⟨h.2.1, h.2.2.1⟩

/-! ### The session-save and workflow API routes -/

/-- JavaScript truthiness of an optional string request field: an absent
(`undefined`/`null`) field and the empty string are falsy (`!x`). -/
def truthy : Option String → Bool
  | none => false
  | some s => !(s == "")

/-- Body of `POST /api/sessions`: `{sessionId, fullName, timestamp}`,
each field possibly absent. -/
structure SessionBody where
  sessionId : Option String
  fullName : Option String
  timestamp : Option String
deriving DecidableEq, Repr

/-- The `sessionData` record written to `sessions/{sessionId}.json`:
`{sessionId, fullName, timestamp, createdAt}` where `createdAt` is
`new Date().toISOString()` at persistence time. -/
structure StoredSession where
  sessionId : String
  fullName : String
  timestamp : Option String
  createdAt : String
deriving DecidableEq, Repr

/-- State of the module-level GCS client and of the write attempt:
the client may have failed to initialize (`storage === null`), the write
stream may error (caught and logged), or the write goes through. -/
inductive StoreStatus where
  | unconfigured
  | failing
  | writable
deriving DecidableEq, Repr

/-- Observable outcome of `POST /api/sessions`: HTTP status, the
`success` body flag, and the blob write that took effect (if any). -/
structure SessionsPostResponse where
  status : Nat
  success : Bool
  written : Option (String × StoredSession)
deriving DecidableEq, Repr

/-- `POST /api/sessions`: destructure `{sessionId, fullName, timestamp}`;
missing `sessionId` or `fullName` is a 400.  Otherwise build
`sessionData` and, if the client exists, attempt the GCS write — a write
failure is caught and logged ("Continue even if GCS fails").  The
response is 200 `{success: true, sessionId, fullName}` regardless of
whether the write happened or succeeded. -/
def sessionsPOST (body : SessionBody) (store : StoreStatus) (now : String) :
    SessionsPostResponse :=
  if !(truthy body.sessionId) || !(truthy body.fullName) then
    { status := 400, success := false, written := none }
  else
    let sid := body.sessionId.getD ""
    let name := body.fullName.getD ""
    let data : StoredSession :=
      { sessionId := sid, fullName := name, timestamp := body.timestamp, createdAt := now }
    { status := 200
      success := true
      written := match store with
        | .writable => some ("sessions/" ++ sid ++ ".json", data)
        | _ => none }

/-- C7: for every `POST /api/sessions` request carrying a `sessionId` and
`fullName`, the blob written under `sessions/{sessionId}.json` is exactly
the four-field record `{sessionId, fullName, timestamp, createdAt}` with
the request's values and the persistence instant. -/
theorem sessionsPOST_blob_shape (body : SessionBody) (now sid name : String)
    (hsid : body.sessionId = some sid) (hsid2 : sid ≠ "")
    (hname : body.fullName = some name) (hname2 : name ≠ "") :
    (sessionsPOST body .writable now).written
      = some ("sessions/" ++ sid ++ ".json",
          { sessionId := sid, fullName := name, timestamp := body.timestamp,
            createdAt := now }) := by
  have ht1 : truthy body.sessionId = true := by
    rw [hsid]
    simp [truthy]
    exact hsid2
  have ht2 : truthy body.fullName = true := by
    rw [hname]
    simp [truthy]
    exact hname2
  unfold sessionsPOST
  rw [ht1, ht2]
  simp [hsid, hname]

/-- C9: for every `POST /api/sessions` request with both `sessionId` and
`fullName` present, the handler responds 200 with `success: true` whatever
the state of the object-store client — an unconfigured client writes
nothing and a failed write is swallowed, neither is reflected in the
response. -/
theorem sessionsPOST_swallows_failure (body : SessionBody) (store : StoreStatus)
    (now sid name : String)
    (hsid : body.sessionId = some sid) (hsid2 : sid ≠ "")
    (hname : body.fullName = some name) (hname2 : name ≠ "") :
    (sessionsPOST body store now).status = 200
    ∧ (sessionsPOST body store now).success = true
    ∧ (store ≠ .writable → (sessionsPOST body store now).written = none) := by
  have ht1 : truthy body.sessionId = true := by
    rw [hsid]
    simp [truthy]
    exact hsid2
  have ht2 : truthy body.fullName = true := by
    rw [hname]
    simp [truthy]
    exact hname2
  unfold sessionsPOST
  rw [ht1, ht2]
  refine ⟨rfl, rfl, ?_⟩
  intro hns
  cases store with
  | unconfigured => rfl
  | failing => rfl
  | writable => exact absurd rfl hns

/-- Body of `POST /api/workflows`: `{sessionId, fullName, workflow}`. -/
structure WorkflowBody where
  sessionId : Option String
  fullName : Option String
  workflow : Option Workflow
deriving DecidableEq, Repr

/-- The `existingWorkflows` read in `POST /api/workflows`: download and
parse the per-session blob when it exists, take `data.workflows || []`;
an absent blob or any read/parse error (caught) yields `[]`. -/
def existingWorkflowsOf (store : List (String × Blob WorkflowData)) (key : String) :
    List Workflow :=
  match getKey store key with
  | some (Blob.ok d) => d.workflows.getD []
  | some Blob.corrupt => []
  | none => []

/-- `POST /api/workflows`: missing `sessionId` or `workflow` is a 400
(`!sessionId || !workflow`); with the client configured, read the
existing per-session list, append the new workflow, and overwrite
`workflows/{sessionId}.json` with `{sessionId, fullName, workflows,
updatedAt}` — a failed write is a 500 with the store unchanged; with no
client, respond 200 without writing. -/
def workflowsPOST (store : List (String × Blob WorkflowData)) (configured writeOk : Bool)
    (body : WorkflowBody) (now : String) : Nat × List (String × Blob WorkflowData) :=
  match body.workflow with
  | none => (400, store)
  | some wf =>
    if !(truthy body.sessionId) then (400, store)
    else
      let sid := body.sessionId.getD ""
      if configured then
        let key := "workflows/" ++ sid ++ ".json"
        let data : WorkflowData :=
          { sessionId := sid
            fullName := body.fullName
            workflows := some (existingWorkflowsOf store key ++ [wf])
            updatedAt := now }
        if writeOk then (200, setKey store key (Blob.ok data))
        else (500, store)
      else (200, store)

/-- C8: a `POST /api/workflows` with a `sessionId` and a `workflow`
(client configured, write succeeding) stores under
`workflows/{sessionId}.json` the previously stored per-session list with
the new workflow appended at the end (the previous list being empty when
no blob existed), together with the `sessionId`, the request's
`fullName`, and the refreshed `updatedAt`. -/
theorem workflowsPOST_appends (store : List (String × Blob WorkflowData))
    (body : WorkflowBody) (now sid : String) (wf : Workflow)
    (hsid : body.sessionId = some sid) (hsid2 : sid ≠ "")
    (hwf : body.workflow = some wf) :
    (workflowsPOST store true true body now).1 = 200
    ∧ getKey (workflowsPOST store true true body now).2 ("workflows/" ++ sid ++ ".json")
        = some (Blob.ok
            { sessionId := sid
              fullName := body.fullName
              workflows :=
                some (existingWorkflowsOf store ("workflows/" ++ sid ++ ".json") ++ [wf])
              updatedAt := now })
    ∧ (getKey store ("workflows/" ++ sid ++ ".json") = none →
        existingWorkflowsOf store ("workflows/" ++ sid ++ ".json") = []) := by
  have ht1 : truthy body.sessionId = true := by
    rw [hsid]
    simp [truthy]
    exact hsid2
  unfold workflowsPOST
  rw [hwf, ht1]
  refine ⟨by simp [hsid], ?_, ?_⟩
  · simp only [Bool.not_true, Bool.false_eq_true, if_false, if_true, hsid, Option.getD_some]
    rw [getKey_setKey, if_pos rfl]
  · intro hn
    unfold existingWorkflowsOf
    rw [hn]

/-- Response of `GET /api/workflows`: the per-session list, the
all-blobs list, or an error status. -/
inductive WfGetResponse where
  | sessionList (ws : List Workflow)
  | allList (ds : List WorkflowData)
  | err (status : Nat)
deriving DecidableEq, Repr

/-- `GET /api/workflows`: with no client, a 500; with a truthy
`sessionId` query parameter, return `{workflows: data.workflows || []}`
— an absent blob or any download/parse error (caught) yields
`{workflows: []}`, always a 200; with no `sessionId`, list every
workflow blob (any download/parse failure there rejects the `Promise.all`
and the outer catch turns it into a 500). -/
def workflowsGET (configured : Bool) (store : List (String × Blob WorkflowData))
    (sessionId : Option String) : WfGetResponse :=
  if !configured then .err 500
  else if truthy sessionId then
    match getKey store ("workflows/" ++ sessionId.getD "" ++ ".json") with
    | some (Blob.ok d) => .sessionList (d.workflows.getD [])
    | some Blob.corrupt => .sessionList []
    | none => .sessionList []
  else if store.all (fun kb => kb.2.parse.isSome) then
    .allList (store.filterMap (fun kb => kb.2.parse))
  else .err 500

/-- C10: a `GET /api/workflows?sessionId=...` query (client configured)
always answers 200 with a workflow list — the empty list whenever the
per-session blob does not exist or fails to download or parse — and
never an error status. -/
theorem workflowsGET_empty_on_missing (store : List (String × Blob WorkflowData))
    (sid : String) (hsid : sid ≠ "") :
    ((getKey store ("workflows/" ++ sid ++ ".json") = none
        ∨ getKey store ("workflows/" ++ sid ++ ".json")
            = some (Blob.corrupt : Blob WorkflowData)) →
      workflowsGET true store (some sid) = .sessionList [])
    ∧ (∃ ws, workflowsGET true store (some sid) = .sessionList ws) := by
  have ht : truthy (some sid) = true := by
    simp [truthy]
    exact hsid
  unfold workflowsGET
  rw [ht]
  constructor
  · rintro (hn | hc)
    · simp only [Bool.not_true, Bool.false_eq_true, if_false, if_true, Option.getD_some]
      rw [hn]
    · simp only [Bool.not_true, Bool.false_eq_true, if_false, if_true, Option.getD_some]
      rw [hc]
  · simp only [Bool.not_true, Bool.false_eq_true, if_false, if_true, Option.getD_some]
    cases hk : getKey store ("workflows/" ++ sid ++ ".json") with
    | none => exact ⟨[], rfl⟩
    | some b =>
      cases b with
      | ok d => exact ⟨d.workflows.getD [], rfl⟩
      | corrupt => exact ⟨[], rfl⟩

/-- A concrete session-save request body. -/
def body0 : SessionBody := ⟨some "s1", some "Ada", some "t0"⟩

theorem sessionsPOST_blob_shape_witness :
    (sessionsPOST body0 .writable "now").written
      = some ("sessions/" ++ "s1" ++ ".json",
          { sessionId := "s1", fullName := "Ada", timestamp := body0.timestamp,
            createdAt := "now" }) :=
  sessionsPOST_blob_shape body0 "now" "s1" "Ada" rfl (by decide) rfl (by decide)

theorem sessionsPOST_swallows_failure_witness :
    (sessionsPOST body0 .unconfigured "now").status = 200
    ∧ (sessionsPOST body0 .unconfigured "now").success = true := by
  have h := sessionsPOST_swallows_failure body0 .unconfigured "now" "s1" "Ada"
      rfl (by decide) rfl (by decide)
  exact ⟨h.1, h.2.1⟩

/-- A workflow already stored for session `s1`. -/
def wfA : Workflow := ⟨"w1", "first", "d1", [], [], "t1"⟩

/-- A newly submitted workflow. -/
def wfB : Workflow := ⟨"w2", "second", "d2", ["x"], ["y"], "t2"⟩

/-- A store with one existing workflow blob for `s1`. -/
def wfStore0 : List (String × Blob WorkflowData) :=
  [("workflows/s1.json", Blob.ok ⟨"s1", some "Ada", some [wfA], "u0"⟩)]

/-- A concrete workflow-save request body. -/
def wfBody0 : WorkflowBody := ⟨some "s1", some "Ada", some wfB⟩

theorem workflowsPOST_appends_witness :
    (workflowsPOST wfStore0 true true wfBody0 "now").1 = 200
    ∧ getKey (workflowsPOST wfStore0 true true wfBody0 "now").2
        ("workflows/" ++ "s1" ++ ".json")
      = some (Blob.ok
          { sessionId := "s1"
            fullName := wfBody0.fullName
            workflows :=
              some (existingWorkflowsOf wfStore0 ("workflows/" ++ "s1" ++ ".json") ++ [wfB])
            updatedAt := "now" }) := by
  have h := workflowsPOST_appends wfStore0 wfBody0 "now" "s1" wfB rfl (by decide) rfl
  exact ⟨h.1, h.2.1⟩

theorem workflowsGET_empty_on_missing_witness :
    workflowsGET true [] (some "s1") = .sessionList [] :=
  (workflowsGET_empty_on_missing [] "s1" (by decide)).1 (Or.inl rfl)
